import Mathlib

/-!
# Verification of the `poh` execution-and-aggregation pipeline

Shallow embedding of the core of `src/poh/poh.py` (remote command dispatch,
on-disk artifact protocol, result collection, and rendering helpers) as
executable Lean definitions, together with theorems settling the frozen
claims about the specification.

Strings are modelled as Lean `String`s over their `List Char` data; Python
semantics that matter (slices, `str.splitlines` on `'\n'`, `str.rsplit`,
`int()` parsing, `re` behaviour of the two concrete patterns used by the
program, `glob` matching of the concrete pattern `*.?.<kind>`) are embedded
by small total functions whose behaviour was derived from the language
reference for exactly the inputs shapes the program produces.
-/

namespace Poh

/-! ## Python string primitives -/

/-- Whitespace stripped by Python `int(str)` (ASCII subset; the artifacts the
program writes only ever contain ASCII whitespace). -/
def pyIsSpace (c : Char) : Bool :=
  c = ' ' || c = '\t' || c = '\n' || c = '\r' || c = '\x0b' || c = '\x0c'

/-- Decimal digit character (`'0'..'9'`). -/
def isDigitCh (c : Char) : Bool := 48 ≤ c.toNat && c.toNat ≤ 57

/-- Validity of the digit part of a Python integer literal after the optional
sign: nonempty, starts with a digit, single underscores only between digits. -/
def pyDigitsRest : List Char → Bool
  | [] => true
  | c :: rest =>
    if c = '_' then
      match rest with
      | [] => false
      | d :: rest' => isDigitCh d && pyDigitsRest rest'
    else isDigitCh c && pyDigitsRest rest

def pyDigitsOk : List Char → Bool
  | [] => false
  | c :: rest => isDigitCh c && pyDigitsRest rest

/-- Numeric value of a list of decimal digit characters. -/
def digitsVal (l : List Char) : Nat :=
  l.foldl (fun a c => a * 10 + (c.toNat - 48)) 0

/-- Both-ends whitespace strip. -/
def pyStripWs (s : String) : List Char :=
  ((s.data.dropWhile pyIsSpace).reverse.dropWhile pyIsSpace).reverse

/-- Split the optional sign off: `(negative?, digit part)`. -/
def pySignSplit (l : List Char) : Bool × List Char :=
  if l.head? = some '+' then (false, l.tail)
  else if l.head? = some '-' then (true, l.tail)
  else (false, l)

/-- Model of Python `int(s)` for a decimal string: strip whitespace, optional
sign, digits with single interior underscores; `none` models `ValueError`. -/
def pyIntParse (s : String) : Option Int :=
  if pyDigitsOk (pySignSplit (pyStripWs s)).2 then
    let v : Nat := digitsVal ((pySignSplit (pyStripWs s)).2.filter (· ≠ '_'))
    some (if (pySignSplit (pyStripWs s)).1 then -(v : Int) else (v : Int))
  else
    none

/-- The first line of a string, newline included: Python `file.readline()`
on a file holding `s` (models `_read_one_line`). -/
def takeLineCh : List Char → List Char
  | [] => []
  | c :: r => if c = '\n' then ['\n'] else c :: takeLineCh r

def pyReadline (s : String) : String := ⟨takeLineCh s.data⟩

/-- `_read_int_from_file` on a file with contents `s`:
`int(first line)`, with `ValueError` giving the sentinel `-1`. -/
def readIntFromContents (s : String) : Int :=
  (pyIntParse (pyReadline s)).getD (-1)

/-- Split a character list on a separator character; pieces do not contain
the separator, and `n` separators yield `n+1` pieces (as Python `str.split`
with a single-character separator). -/
def splitOnCh (sep : Char) : List Char → List (List Char)
  | [] => [[]]
  | c :: rest =>
    let ps := splitOnCh sep rest
    if c = sep then [] :: ps else (c :: ps.headD []) :: ps.tail

theorem splitOnCh_ne_nil (sep : Char) (l : List Char) : splitOnCh sep l ≠ [] := by
  cases l with
  | nil => simp [splitOnCh]
  | cons c rest =>
    by_cases hc : c = sep <;> simp [splitOnCh, hc]

theorem splitOnCh_append_sep (sep : Char) (A B : List Char) :
    splitOnCh sep (A ++ sep :: B) = splitOnCh sep A ++ splitOnCh sep B := by
  induction A with
  | nil => simp [splitOnCh]
  | cons c rest ih =>
    by_cases hc : c = sep
    · simp [splitOnCh, hc, ih]
    · cases h : splitOnCh sep rest with
      | nil => exact absurd h (splitOnCh_ne_nil sep rest)
      | cons p ps => simp [splitOnCh, hc, ih, h]

theorem splitOnCh_of_not_mem {sep : Char} {l : List Char} (h : sep ∉ l) :
    splitOnCh sep l = [l] := by
  induction l with
  | nil => rfl
  | cons c rest ih =>
    simp only [List.mem_cons, not_or] at h
    have hc : ¬c = sep := fun hc => h.1 hc.symm
    simp [splitOnCh, ih h.2, hc]

/-- Joining pieces back with the separator (used to model the front part that
Python `rsplit` leaves intact). -/
def joinSep (sep : Char) : List (List Char) → List Char
  | [] => []
  | [p] => p
  | p :: ps => p ++ sep :: joinSep sep ps

theorem joinSep_splitOnCh (sep : Char) (l : List Char) :
    joinSep sep (splitOnCh sep l) = l := by
  induction l with
  | nil => rfl
  | cons c rest ih =>
    cases h : splitOnCh sep rest with
    | nil => exact absurd h (splitOnCh_ne_nil sep rest)
    | cons p ps =>
      rw [h] at ih
      by_cases hc : c = sep
      · subst hc
        simpa [splitOnCh, h, joinSep] using ih
      · cases ps with
        | nil => simpa [splitOnCh, h, hc, joinSep] using ih
        | cons q qs => simpa [splitOnCh, h, hc, joinSep] using ih

/-- Python `"a\nb\n".splitlines()`-style splitting for `'\n'`-terminated text
(the program's artifact files only use `'\n'` line boundaries). -/
def splitlinesCh (l : List Char) : List (List Char) :=
  let ps := splitOnCh '\n' l
  if ps.getLast? = some [] then ps.dropLast else ps

def pySplitlines (s : String) : List String :=
  (splitlinesCh s.data).map (fun l => ⟨l⟩)

/-- `_count_lines`: the number of lines yielded by iterating the file, i.e.
the number of `splitlines` pieces for `'\n'`-based text. -/
def countLines (s : String) : Nat := (pySplitlines s).length

/-! ## Artifact naming (`<server>.<command-number>.<kind>`) -/

/-- Decimal digit string of `n` (model of Python `str(cmd_num)` for the
nonnegative command numbers the program uses); fuel-based so that the kernel
can evaluate it. -/
def natDigits : Nat → Nat → List Char
  | 0, _ => []
  | fuel + 1, n =>
    if n < 10 then [Nat.digitChar n]
    else natDigits fuel (n / 10) ++ [Nat.digitChar (n % 10)]

def pyStrNat (n : Nat) : String := ⟨natDigits (n + 1) n⟩

/-- `'.'.join([server, str(cmd_num), filetype])` — the on-disk artifact name
built by `remote_execute`. -/
def composeName (server : String) (cmdNum : Nat) (filetype : String) : String :=
  server ++ "." ++ pyStrNat cmdNum ++ "." ++ filetype

/-- Python `name.rsplit('.', 2)` unpacked into three parts, as done by
`read_result_files` and `redirect_streams`; `none` models the `ValueError`
raised when the name holds fewer than two dots. -/
def rsplit2 (sep : Char) (s : String) : Option (String × String × String) :=
  let ps := splitOnCh sep s.data
  if 3 ≤ ps.length then
    some (⟨joinSep sep (ps.take (ps.length - 2))⟩,
          ⟨(ps.get? (ps.length - 2)).getD []⟩,
          ⟨(ps.getLast?).getD []⟩)
  else
    none

/-- `glob` match for the pattern `'*.?.' + kind` used by both
`read_result_files` and `redirect_streams`: `*` matches any (possibly empty)
run of characters, `?` exactly one character, and a leading `'.'` in the file
name is never matched by `*`. -/
def matchesGlob (kind : String) (name : String) : Bool :=
  match name.data with
  | [] => false
  | c₀ :: _ =>
    let r := name.data.reverse
    let k := kind.data.length
    c₀ ≠ '.' &&
    r.take k = kind.data.reverse &&
    r.get? k = some '.' &&
    r.get? (k + 2) = some '.' &&
    k + 3 ≤ r.length

/-! ## The Collector's stderr noise filter -/

def noNewline (l : List Char) : Bool := !l.contains '\n'

/-- Model of `re.sub(r'^ControlSocket .*?\n?$', '', s)` as written in
`read_result_files` — crucially *without* `re.MULTILINE`.  `^` therefore
anchors only at the start of the whole string, `$` matches only at its end or
just before a final newline, and the lazy `.*?` cannot cross a newline, so a
match exists exactly when the string is
  `"ControlSocket " ++ A`            (`A` newline-free)            → `""`
  `"ControlSocket " ++ A ++ "\n"`    (`A` newline-free)            → `""`
  `"ControlSocket " ++ A ++ "\n\n"`  (match stops before the final
                                      newline, which survives)     → `"\n"`
and every other string is returned unchanged. -/
def pyReSubControlSocket (s : String) : String :=
  if s.data.take 14 = "ControlSocket ".data then
    let rest := s.data.drop 14
    if noNewline rest then ""
    else if rest.getLast? = some '\n' && noNewline rest.dropLast then ""
    else if rest.getLast? = some '\n' && rest.dropLast.getLast? = some '\n'
            && noNewline (rest.dropLast.dropLast) then "\n"
    else s
  else s

/-! ## The Collector (`read_result_files`) -/

/-- One entry of the nested results dictionary: the per-unit record
`{'retval': ..., 'stdout': ..., 'stderr': ...}`, each field a
`(value, line-count)` pair, `none` until the corresponding artifact file has
been processed. -/
structure CmdResult where
  retval : Option (Int × Nat)
  stdout : Option (String × Nat)
  stderr : Option (String × Nat)
deriving DecidableEq

def emptyCmdResult : CmdResult := ⟨none, none, none⟩

/-- The nested dictionary `results[server][cmdnum]`, flattened to a function
on keys; `none` marks an absent key. -/
def RMap : Type := String × Int → Option CmdResult

/-- A run directory: file names with their contents. -/
def DirListing : Type := List (String × String)

def dirNames (dir : DirListing) : List String := dir.map (·.1)

def fileContents (dir : DirListing) (name : String) : String :=
  ((dir.find? (fun p => p.1 == name)).map (·.2)).getD ""

/-- Python string comparison: lexicographic on code points (strict). -/
def lexLtCh : List Char → List Char → Bool
  | [], [] => false
  | [], _ :: _ => true
  | _ :: _, [] => false
  | a :: as, b :: bs => if a = b then lexLtCh as bs else decide (a.toNat < b.toNat)

/-- Python string comparison: lexicographic on code points (non-strict). -/
def lexLeCh : List Char → List Char → Bool
  | [], _ => true
  | _ :: _, [] => false
  | a :: as, b :: bs => if a = b then lexLeCh as bs else decide (a.toNat < b.toNat)

def strLt (a b : String) : Bool := lexLtCh a.data b.data

def strLe (a b : String) : Bool := lexLeCh a.data b.data

/-- `sorted(glob.glob(os.path.join(output_dir, '*.?.' + filetype)))`:
the names in the run directory matching the glob, sorted. -/
def globSorted (dir : DirListing) (filetype : String) : List String :=
  List.insertionSort (fun a b => strLe a b = true)
    ((dirNames dir).filter (matchesGlob filetype))

/-- The reader function chosen for `stdout`/`stderr`
(`_read_entire_file`, or `_read_one_line` when `one_line`). -/
def streamReader (oneLine : Bool) (contents : String) : String :=
  if oneLine then pyReadline contents else contents

/-- Processing of one result file in the Collector loop: re-derive the key
with `rsplit('.', 2)` and `int`, then store the `(value, line-count)` pair in
the nested dictionary, filtering `stderr` through the `ControlSocket`
substitution.  `Except.error` models the uncaught `ValueError` paths. -/
def collectStep (oneLine : Bool) (dir : DirListing) (filetype : String)
    (m : RMap) (name : String) : Except String RMap :=
  match rsplit2 '.' name with
  | none => .error "ValueError: rsplit"
  | some (server, cmdnumStr, _) =>
    match pyIntParse cmdnumStr with
    | none => .error "ValueError: int"
    | some cmdnum =>
      let contents := fileContents dir name
      let linesInFile := countLines contents
      let prev := (m (server, cmdnum)).getD emptyCmdResult
      let filtered := pyReSubControlSocket (streamReader oneLine contents)
      let entry :=
        if filetype = "stderr" then
          { prev with stderr := some (filtered, linesInFile) }
        else if filetype = "stdout" then
          { prev with stdout := some (streamReader oneLine contents, linesInFile) }
        else
          { prev with retval := some (readIntFromContents contents, linesInFile) }
      .ok (fun k => if k = (server, cmdnum) then some entry else m k)

/-- `read_result_files(output_dir, one_line)`: for each artifact kind (in the
dictionary's insertion order `retval`, `stdout`, `stderr`), process the
matching files in sorted order. -/
def readResultFiles (dir : DirListing) (oneLine : Bool) : Except String RMap :=
  ["retval", "stdout", "stderr"].foldlM
    (fun m filetype => (globSorted dir filetype).foldlM (collectStep oneLine dir filetype) m)
    (fun _ => none)

/-- Lookup helper: `some (f key)` when collection succeeded with map `f`. -/
def collectAt (dir : DirListing) (oneLine : Bool) (k : String × Int) :
    Option (Option CmdResult) :=
  match readResultFiles dir oneLine with
  | .ok f => some (f k)
  | .error _ => none

/-! ## The Stream Redirector's enumeration (`redirect_streams`) -/

/-- Python tuple comparison on the `(srv, cmd_num, stream)` triples
(the sort key `itemgetter(0, 1, 2)`). -/
def tripleLe (a b : String × String × String) : Bool :=
  if a.1 ≠ b.1 then strLt a.1 b.1
  else if a.2.1 ≠ b.2.1 then strLt a.2.1 b.2.1
  else strLe a.2.2 b.2.2

/-- The transposed sort key `itemgetter(1, 0, 2)`. -/
def tripleLeT (a b : String × String × String) : Bool :=
  tripleLe (a.2.1, a.1, a.2.2) (b.2.1, b.1, b.2.2)

/-- The `(srv, cmd_num, stream)` tuples `redirect_streams` enumerates and
sorts (stderr files chained before stdout files, then sorted by
server-command-stream, or command-server-stream under `transpose_output`).
The destination stream and path of each tuple are determined by the fields
kept here. -/
def redirectTuples (names : List String) (transpose : Bool) :
    List (String × String × String) :=
  let filepaths := fun ft =>
    List.insertionSort (fun a b => strLe a b = true) (names.filter (matchesGlob ft))
  let tuples := (filepaths "stderr" ++ filepaths "stdout").filterMap
    (fun fpath => rsplit2 '.' fpath)
  if transpose then List.insertionSort (fun a b => tripleLeT a b = true) tuples
  else List.insertionSort (fun a b => tripleLe a b = true) tuples

/-! ## Output-body rendering (`_std_streams_lines`) -/

def xPrefix : String := "      X "
def oPrefix : String := "      > "

/-- Python `lst[-k:]`: the last `k` elements — except that `lst[-0:]` is the
whole list. -/
def pyLastSlice (k : Nat) (l : List String) : List String :=
  if k = 0 then l else l.drop (l.length - k)

/-- `'      {X|>} Output clipped to the last {} of {} lines'`. -/
def clipFooter (tag : String) (limit m : Nat) : String :=
  tag ++ "Output clipped to the last " ++ pyStrNat limit ++ " of " ++ pyStrNat m ++ " lines"

/-- `_std_streams_lines(cmd_results, long_output, limit_lines)` on a unit
whose collected stdout/stderr texts are `cmdStdout`/`cmdStderr` and whose
on-disk line counts are `stdoutLn`/`stderrLn`.

The non-long branch mirrors the source's loop-variable flow: `lnum` starts at
`1`, the stderr `for` loop leaves it at the stderr line count (or `1` when
stderr is empty), and the stdout `for` loop *reuses the same variable*, so an
empty stdout leaves the stderr value in place for the stdout clipping test. -/
def stdStreamsLines (cmdStdout cmdStderr : String) (stdoutLn stderrLn : Nat)
    (longOutput : Bool) (limitLines : Nat) : List String :=
  let trailer : List String := if stdoutLn + stderrLn > 0 then [""] else []
  if !longOutput then
    let stderrLines := (pySplitlines cmdStderr).map (xPrefix ++ ·)
    let lnumE := if stderrLines.length = 0 then 1 else stderrLines.length
    let errBlock :=
      if lnumE > limitLines then
        [xPrefix ++ "..."] ++ pyLastSlice limitLines stderrLines
          ++ [clipFooter xPrefix limitLines lnumE]
      else stderrLines
    let stdoutLines := (pySplitlines cmdStdout).map (oPrefix ++ ·)
    let lnumO := if stdoutLines.length = 0 then lnumE else stdoutLines.length
    let outBlock :=
      if lnumO > limitLines then
        [oPrefix ++ "..."] ++ pyLastSlice limitLines stdoutLines
          ++ [clipFooter oPrefix limitLines lnumO]
      else stdoutLines
    errBlock ++ outBlock ++ trailer
  else
    (pySplitlines cmdStderr).map (xPrefix ++ ·)
      ++ (pySplitlines cmdStdout).map (oPrefix ++ ·) ++ trailer

/-! ## Width policy (`print_execution_results`, lines 743-754) -/

/-- Python prefix slice `line[:k]` for a possibly negative `k`. -/
def pyPrefixSlice (k : Int) (l : List Char) : List Char :=
  if 0 ≤ k then l.take k.toNat else l.take (l.length - (-k).toNat)

/-- Total length of the matches of `re.findall('\x1b\[.*?m', line)`:
each match runs from an `ESC [` to the nearest following `m`, without
crossing a newline. `scanToM` returns the number of characters up to and
including that `m`, with the remainder of the scan. -/
def scanToM : List Char → Option (Nat × List Char)
  | [] => none
  | c :: rest =>
    if c = 'm' then some (1, rest)
    else if c = '\n' then none
    else
      match scanToM rest with
      | some (n, r) => some (n + 1, r)
      | none => none

def ansiLenGo : Nat → List Char → Nat
  | 0, _ => 0
  | _ + 1, [] => 0
  | fuel + 1, c :: rest =>
    if c = '\x1b' ∧ rest.head? = some '[' then
      match scanToM rest.tail with
      | some (n, r) => (2 + n) + ansiLenGo fuel r
      | none => ansiLenGo fuel rest
    else ansiLenGo fuel rest

/-- `sum(map(len, re.findall('\x1b\[.*?m', line)))`. -/
def ansiLen (s : String) : Nat := ansiLenGo s.data.length s.data

/-- The visible (non-escape) length of a line. -/
def visLen (s : String) : Nat := s.length - ansiLen s

/-- The non-colorized shortening applied to each output line:
`line[:term_columns-3]+'...' if len(line) > term_columns else line`. -/
def applyWidthNoColor (w : Nat) (line : String) : String :=
  if line.length > w then ⟨pyPrefixSlice ((w : Int) - 3) line.data⟩ ++ "..." else line

/-- The colorized shortening: escapes counted by `ansiLen` extend the budget,
`line` is kept whenever `term_columns + escaped_chars_num >= len(line)`. -/
def applyWidthColor (w : Nat) (line : String) : String :=
  if line.length > w then
    let e := ansiLen line
    if w + e ≥ line.length then line
    else ⟨pyPrefixSlice ((w : Int) + (e : Int) - 3) line.data⟩ ++ "..."
  else line

/-! ## Terminal geometry (`_get_terminal_size`) -/

/-- `int(os.environ.get(VAR))`: `TypeError` when the variable is unset,
`ValueError` when unparsable; both are caught and give `None`. -/
def pyEnvInt (v : Option String) : Option Int := v.bind pyIntParse

/-- `_get_terminal_size(fd)`.

* `shutilResult` models lines 165-170 (`shutil.get_terminal_size()`, with
  `AttributeError` giving `None, None`); the value is dead in the source:
  lines 172-187 overwrite both variables, on ioctl success and on every
  failure path alike.
* `ioctlResult` is `some (lines, columns)` for a successful
  `struct.unpack('hh', fcntl.ioctl(fd, TIOCGWINSZ, ...))` (rows first), and
  `none` when the `IOError`/`Exception` handlers fire.
* `envColumns`/`envLines` model `os.environ.get('COLUMNS'/'LINES')`. -/
def getTerminalSize (shutilResult : Option (Int × Int))
    (ioctlResult : Option (Int × Int)) (envColumns envLines : Option String) :
    Option Int × Option Int :=
  match shutilResult, ioctlResult with
  | _, some (lines, cols) => (some cols, some lines)
  | _, none => (pyEnvInt envColumns, pyEnvInt envLines)

/-- `print_execution_results`, lines 611-615: a missing width forces
`wide_output`, a missing height forces `long_output`. -/
def applyMissingDims (wideOutput longOutput : Bool) (termColumns termLines : Option Int) :
    Bool × Bool :=
  (if termColumns = none then true else wideOutput,
   if termLines = none then true else longOutput)

/-! ## The Dispatcher (`remote_execute`) -/

/-- `itertools.product(servers, enumerate(chain(*commands.values()), 1))`:
servers iterate in the outer loop, globally numbered commands in the inner
loop.  `commands` is the ordered dictionary's list of per-file command
lists. -/
def runQueue (servers : List String) (commands : List (List String)) :
    List (String × Nat × String) :=
  servers.flatMap (fun server =>
    (List.enumFrom 1 commands.flatten).map (fun nc => (server, nc.1, nc.2)))

/-- The three artifact names opened for one execution unit. -/
def unitTriple (server : String) (cmdNum : Nat) : List String :=
  [composeName server cmdNum "retval",
   composeName server cmdNum "stdout",
   composeName server cmdNum "stderr"]

/-- Events of a `remote_execute` run, in program order. -/
inductive REEvent where
  | openFile (name : String)
  | spawn (server : String) (cmdNum : Nat)
  | wait (server : String) (cmdNum : Nat)
  | writeRetval (server : String) (cmdNum : Nat) (code : Int)
deriving DecidableEq

/-- The event trace of `remote_execute(servers, commands, ...)` when every
spawn succeeds: first the dispatch loop (three `open`s then a `Popen` per
unit), then the collection loop (`communicate()` then the retval write per
unit, in start order).  `rc` gives each unit's process exit code. -/
def remoteExecuteTrace (rc : String → Nat → Int) (servers : List String)
    (commands : List (List String)) : List REEvent :=
  (runQueue servers commands).flatMap
    (fun u => (unitTriple u.1 u.2.1).map REEvent.openFile ++ [REEvent.spawn u.1 u.2.1])
  ++ (runQueue servers commands).flatMap
    (fun u => [REEvent.wait u.1 u.2.1, REEvent.writeRetval u.1 u.2.1 (rc u.1 u.2.1)])

def isSpawn : REEvent → Bool
  | .spawn _ _ => true
  | _ => false

def openedName : REEvent → Option String
  | .openFile n => some n
  | _ => none

/-- `remote_execute` with a fallible `subprocess.Popen`, tracking the handles
accumulated in `result_files`: each iteration opens its three artifact files
and appends them *before* attempting the spawn, so on a spawn failure the
`finally` block sees every handle opened so far.  Returns the outcome and the
list of opened file names. -/
def dispatchLoop (spawnOk : String → Nat → Bool) :
    List (String × Nat × String) → List String → Except (String × Nat) Unit × List String
  | [], acc => (.ok (), acc)
  | u :: rest, acc =>
    let acc' := acc ++ unitTriple u.1 u.2.1
    if spawnOk u.1 u.2.1 then dispatchLoop spawnOk rest acc'
    else (.error (u.1, u.2.1), acc')

/-- `remote_execute` outcome under a spawn oracle: `(result, opened, closed)`.
The `finally` block closes every handle in `result_files` (catching `IOError`
per handle and continuing), on the normal and the abnormal path alike, so the
closed list always equals the opened list. -/
def remoteExecuteSpawn (spawnOk : String → Nat → Bool) (servers : List String)
    (commands : List (List String)) :
    Except (String × Nat) Unit × List String × List String :=
  let ro := dispatchLoop spawnOk (runQueue servers commands) []
  (ro.1, ro.2, ro.2)

/-! ## Decimal digit strings: `int(str(n)) = n` -/

theorem natDigits_all_digits :
    ∀ fuel n, n < fuel → ∀ c ∈ natDigits fuel n, isDigitCh c = true := by
  intro fuel
  induction fuel with
  | zero => intro n hn; omega
  | succ fuel ih =>
    intro n hn c hc
    by_cases h10 : n < 10
    · simp only [natDigits, if_pos h10, List.mem_singleton] at hc
      subst hc
      interval_cases n <;> decide
    · simp only [natDigits, if_neg h10, List.mem_append, List.mem_singleton] at hc
      rcases hc with hc | hc
      · exact ih (n / 10) (by omega) c hc
      · subst hc
        have : n % 10 < 10 := Nat.mod_lt _ (by omega)
        interval_cases h : n % 10 <;> simp_all <;> decide

theorem natDigits_ne_nil {fuel n : Nat} (h : n < fuel) : natDigits fuel n ≠ [] := by
  cases fuel with
  | zero => omega
  | succ fuel =>
    by_cases h10 : n < 10 <;> simp [natDigits, h10]

theorem digitsVal_append (A : List Char) (c : Char) :
    digitsVal (A ++ [c]) = digitsVal A * 10 + (c.toNat - 48) := by
  simp [digitsVal, List.foldl_append]

theorem digitsVal_natDigits : ∀ fuel n, n < fuel → digitsVal (natDigits fuel n) = n := by
  intro fuel
  induction fuel with
  | zero => intro n hn; omega
  | succ fuel ih =>
    intro n hn
    by_cases h10 : n < 10
    · have hd : (Nat.digitChar n).toNat - 48 = n := by
        interval_cases n <;> decide
      simp [natDigits, h10, digitsVal, hd]
    · have hd : (Nat.digitChar (n % 10)).toNat - 48 = n % 10 := by
        have : n % 10 < 10 := Nat.mod_lt _ (by omega)
        interval_cases h : n % 10 <;> simp_all <;> decide
      rw [natDigits, if_neg h10, digitsVal_append, ih (n / 10) (by omega), hd]
      omega

theorem isDigitCh_facts {c : Char} (h : isDigitCh c = true) :
    pyIsSpace c = false ∧ c ≠ '_' ∧ c ≠ '+' ∧ c ≠ '-' ∧ c ≠ '.' := by
  refine ⟨?_, ?_, ?_, ?_, ?_⟩
  · by_contra hsp
    rw [Bool.not_eq_false] at hsp
    simp only [pyIsSpace, Bool.or_eq_true, decide_eq_true_eq] at hsp
    rcases hsp with ((((h1 | h1) | h1) | h1) | h1) | h1 <;> subst h1 <;> revert h <;> decide
  all_goals intro h1; subst h1; revert h; decide

theorem dropWhile_eq_self_of_head {p : Char → Bool} :
    ∀ {l : List Char}, (∀ c ∈ l.head?, p c = false) → l.dropWhile p = l := by
  intro l h
  cases l with
  | nil => rfl
  | cons c rest =>
    simp only [List.head?_cons, Option.mem_def, Option.some.injEq, forall_eq'] at h
    simp [List.dropWhile_cons, h]

theorem pyDigitsRest_of_all_digits :
    ∀ {l : List Char}, (∀ c ∈ l, isDigitCh c = true) → pyDigitsRest l = true := by
  intro l
  induction l with
  | nil => intro _; rfl
  | cons c rest ih =>
    intro h
    have hc := h c (List.mem_cons_self c rest)
    have hne := (isDigitCh_facts hc).2.1
    rw [pyDigitsRest.eq_def]
    dsimp only
    rw [if_neg hne]
    simp only [Bool.and_eq_true]
    exact ⟨hc, ih fun d hd => h d (List.mem_cons_of_mem _ hd)⟩

/-- Python `int(str(n)) == n`: parsing the decimal rendering of a command
number recovers the number. -/
theorem pyIntParse_pyStrNat (n : Nat) : pyIntParse (pyStrNat n) = some n := by
  have hdig : ∀ c ∈ natDigits (n + 1) n, isDigitCh c = true :=
    natDigits_all_digits (n + 1) n (Nat.lt_succ_self n)
  have hne : natDigits (n + 1) n ≠ [] := natDigits_ne_nil (Nat.lt_succ_self n)
  set D := natDigits (n + 1) n with hD
  have hdata : (pyStrNat n).data = D := rfl
  have hnosp : ∀ c ∈ D, pyIsSpace c = false := fun c hc => (isDigitCh_facts (hdig c hc)).1
  have h1 : D.dropWhile pyIsSpace = D :=
    dropWhile_eq_self_of_head (fun c hc => hnosp c (List.mem_of_mem_head? hc))
  have h2 : D.reverse.dropWhile pyIsSpace = D.reverse := by
    refine dropWhile_eq_self_of_head (fun c hc => ?_)
    exact hnosp c (List.mem_reverse.mp (List.mem_of_mem_head? hc))
  have hstrip : pyStripWs (pyStrNat n) = D := by
    unfold pyStripWs
    rw [hdata, h1, h2, List.reverse_reverse]
  obtain ⟨c₀, rest, hcons⟩ := List.exists_cons_of_ne_nil hne
  have hc₀ := hdig c₀ (by rw [hcons]; exact List.mem_cons_self _ _)
  have hfacts := isDigitCh_facts hc₀
  have hhead : D.head? = some c₀ := by rw [hcons]; rfl
  have hsign : pySignSplit D = (false, D) := by
    unfold pySignSplit
    rw [hhead]
    rw [if_neg (by simp only [Option.some.injEq]; exact fun h => hfacts.2.2.1 h)]
    rw [if_neg (by simp only [Option.some.injEq]; exact fun h => hfacts.2.2.2.1 h)]
  have hok : pyDigitsOk D = true := by
    rw [hcons]
    simp only [pyDigitsOk, Bool.and_eq_true]
    exact ⟨hc₀, pyDigitsRest_of_all_digits
      fun d hd => hdig d (by rw [hcons]; exact List.mem_cons_of_mem _ hd)⟩
  have hfilter : D.filter (fun c => !decide (c = '_')) = D := by
    refine List.filter_eq_self.mpr fun c hc => ?_
    simpa using (isDigitCh_facts (hdig c hc)).2.1
  have hval : digitsVal D = n := digitsVal_natDigits (n + 1) n (Nat.lt_succ_self n)
  unfold pyIntParse
  rw [hstrip, hsign]
  simp [hok, hfilter, hval]

/-! ## `rsplit('.', 2)` inverts the artifact-name composition -/

theorem rsplit2_roundtrip (a b c : String) (hb : '.' ∉ b.data) (hc : '.' ∉ c.data) :
    rsplit2 '.' (a ++ "." ++ b ++ "." ++ c) = some (a, b, c) := by
  have hdot : ("." : String).data = ['.'] := rfl
  have hdata : (a ++ "." ++ b ++ "." ++ c).data
      = a.data ++ '.' :: (b.data ++ '.' :: c.data) := by
    simp [String.data_append, hdot]
  have hsplit : splitOnCh '.' (a ++ "." ++ b ++ "." ++ c).data
      = splitOnCh '.' a.data ++ [b.data, c.data] := by
    rw [hdata, splitOnCh_append_sep, splitOnCh_append_sep,
        splitOnCh_of_not_mem hb, splitOnCh_of_not_mem hc]
    rfl
  have hlen : (splitOnCh '.' a.data).length ≥ 1 :=
    List.length_pos.mpr (splitOnCh_ne_nil '.' a.data)
  unfold rsplit2
  simp only [hsplit]
  rw [if_pos (by simp only [List.length_append, List.length_cons, List.length_nil]; omega)]
  have hlen2 : (splitOnCh '.' a.data ++ [b.data, c.data]).length - 2
      = (splitOnCh '.' a.data).length := by
    simp only [List.length_append, List.length_cons, List.length_nil]
    omega
  rw [hlen2]
  have htake : (splitOnCh '.' a.data ++ [b.data, c.data]).take (splitOnCh '.' a.data).length
      = splitOnCh '.' a.data := List.take_left _ _
  have hget : (splitOnCh '.' a.data ++ [b.data, c.data]).get? (splitOnCh '.' a.data).length
      = some b.data := by
    rw [List.get?_append_right (le_refl _)]
    simp
  have hlast : (splitOnCh '.' a.data ++ [b.data, c.data]).getLast? = some c.data := by
    have : splitOnCh '.' a.data ++ [b.data, c.data]
        = (splitOnCh '.' a.data ++ [b.data]) ++ [c.data] := by simp
    rw [this, List.getLast?_concat]
  rw [htake, hget, hlast, joinSep_splitOnCh]
  rfl

theorem pyStrNat_no_dot (n : Nat) : '.' ∉ (pyStrNat n).data := by
  intro hmem
  have hd := natDigits_all_digits (n + 1) n (Nat.lt_succ_self n) '.' hmem
  exact absurd hd (by decide)

theorem composeName_roundtrip (server : String) (n : Nat) (kind : String)
    (hk : '.' ∉ kind.data) :
    rsplit2 '.' (composeName server n kind) = some (server, pyStrNat n, kind) :=
  rsplit2_roundtrip server (pyStrNat n) kind (pyStrNat_no_dot n) hk

theorem composeName_inj {s₁ s₂ : String} {n₁ n₂ : Nat} {k₁ k₂ : String}
    (hk₁ : '.' ∉ k₁.data) (hk₂ : '.' ∉ k₂.data)
    (h : composeName s₁ n₁ k₁ = composeName s₂ n₂ k₂) :
    s₁ = s₂ ∧ n₁ = n₂ ∧ k₁ = k₂ := by
  have h₁ := composeName_roundtrip s₁ n₁ k₁ hk₁
  rw [h, composeName_roundtrip s₂ n₂ k₂ hk₂] at h₁
  have heq := Option.some.inj h₁
  have hs : s₂ = s₁ := congrArg Prod.fst heq
  have hn : pyStrNat n₂ = pyStrNat n₁ := congrArg (fun p => p.2.1) heq
  have hk : k₂ = k₁ := congrArg (fun p => p.2.2) heq
  refine ⟨hs.symm, ?_, hk.symm⟩
  have hp := pyIntParse_pyStrNat n₂
  rw [hn, pyIntParse_pyStrNat n₁] at hp
  exact Int.ofNat.inj (Option.some.inj hp)

/-! # Claims -/

/-! ## C7: unparsable exit-code artifacts give the sentinel `-1` -/

/-- **C7**: for every artifact file whose first line does not parse as an
integer, `_read_int_from_file` returns the sentinel `-1`; the `ValueError`
is caught locally (the embedding is a total function — no exception escapes
to the caller), and rendering proceeds with the sentinel. -/
theorem read_int_unparsable_gives_sentinel (contents : String)
    (h : pyIntParse (pyReadline contents) = none) :
    readIntFromContents contents = -1 := by
  unfold readIntFromContents
  rw [h]
  rfl

theorem read_int_unparsable_gives_sentinel_witness :
    pyIntParse (pyReadline "not-a-number\n") = none ∧
      readIntFromContents "not-a-number\n" = -1 :=
  ⟨by decide, read_int_unparsable_gives_sentinel "not-a-number\n" (by decide)⟩

/-! ## C10: artifact-name round-trip -/

/-- **C10**: composing the artifact basename as
`server + '.' + str(n) + '.' + kind` and re-deriving the key by splitting
from the right on two delimiters returns exactly the original parts, for
every server name (dotted ones included), every command number, and every
artifact kind; `int()` recovers the command number, as the Collector does. -/
theorem artifact_name_roundtrip (server : String) (n : Nat) (kind : String)
    (hkind : kind ∈ ["retval", "stdout", "stderr"]) :
    rsplit2 '.' (composeName server n kind) = some (server, pyStrNat n, kind)
    ∧ pyIntParse (pyStrNat n) = some n := by
  have hk : '.' ∉ kind.data := by
    simp only [List.mem_cons, List.not_mem_nil, or_false] at hkind
    rcases hkind with rfl | rfl | rfl <;> decide
  exact ⟨composeName_roundtrip server n kind hk, pyIntParse_pyStrNat n⟩

theorem artifact_name_roundtrip_witness :
    (rsplit2 '.' (composeName "a.b.example.com" 12 "stdout")
        = some ("a.b.example.com", pyStrNat 12, "stdout")
      ∧ pyIntParse (pyStrNat 12) = some 12)
    ∧ composeName "a.b.example.com" 12 "stdout" = "a.b.example.com.12.stdout" :=
  ⟨artifact_name_roundtrip "a.b.example.com" 12 "stdout" (by decide), by decide⟩

/-! ## C2: the stderr `ControlSocket` filter (missing `re.MULTILINE`) -/

/-- The stderr artifact of the spec's own noise-filter test. -/
def noisyStderr : String := "ControlSocket /tmp/x.sock exists\nreal error\n"

/-- A run directory holding one unit whose stderr mixes `ControlSocket`
noise with real error output. -/
def noiseDir : DirListing :=
  [("web1.1.retval", "0\n"), ("web1.1.stdout", ""), ("web1.1.stderr", noisyStderr)]

/-- **C2** (code bug): the Collector's substitution
`re.sub(r'^ControlSocket .*?\n?$', '', stderr)` lacks `re.MULTILINE`, so on
the stderr text `"ControlSocket /tmp/x.sock exists\nreal error\n"` it
matches nothing and the text is returned *unchanged* — not `"real error\n"`
as the specified per-line filter would give.  The pattern does strip the
noise when the ControlSocket line is the entire capture, which is the
evident intent of the anchors. -/
theorem collector_keeps_controlsocket_noise_in_multiline_stderr :
    collectAt noiseDir false ("web1", 1) =
      some (some ⟨some (0, 1), some ("", 0), some (noisyStderr, 2)⟩)
    ∧ pyReSubControlSocket noisyStderr = noisyStderr
    ∧ noisyStderr ≠ "real error\n"
    ∧ pyReSubControlSocket "ControlSocket /tmp/x.sock exists\n" = "" := by
  exact ⟨by decide, by decide, by decide, by decide⟩

/-! ## C1: enumeration misses command numbers above 9 -/

/-- The artifacts of a run of ten commands on the single server `web1`
(exactly the names `remote_execute` creates). -/
def tenCmdDir : DirListing :=
  ((List.range 10).map (· + 1)).flatMap (fun n =>
    [(composeName "web1" n "retval", "0\n"),
     (composeName "web1" n "stdout", "hi\n"),
     (composeName "web1" n "stderr", "")])

/-- **C1** (code bug): the glob pattern `'*.?.' + kind` fixes the command
number to a *single* character, so although the run directory contains the
complete artifact triple for command 10, `read_result_files` returns no
entry for `("web1", 10)` (while command 9 is collected in full), and
`redirect_streams` never enumerates the command-10 stdout/stderr artifacts
(while it does enumerate command 9's). -/
theorem collector_and_redirector_miss_two_digit_command_numbers :
    (composeName "web1" 10 "retval") ∈ dirNames tenCmdDir
    ∧ (composeName "web1" 10 "stdout") ∈ dirNames tenCmdDir
    ∧ (composeName "web1" 10 "stderr") ∈ dirNames tenCmdDir
    ∧ collectAt tenCmdDir false ("web1", 10) = some none
    ∧ collectAt tenCmdDir false ("web1", 9) =
        some (some ⟨some (0, 1), some ("hi\n", 1), some ("", 0)⟩)
    ∧ ("web1", "10", "stdout") ∉ redirectTuples (dirNames tenCmdDir) false
    ∧ ("web1", "10", "stderr") ∉ redirectTuples (dirNames tenCmdDir) false
    ∧ ("web1", "9", "stdout") ∈ redirectTuples (dirNames tenCmdDir) false
    ∧ ("web1", "9", "stderr") ∈ redirectTuples (dirNames tenCmdDir) false := by
  refine ⟨by decide, by decide, by decide, by decide, by decide, ?_, ?_, by decide, by decide⟩
  · decide
  · decide

/-! ## C9: the stdout clipping test reuses the stderr loop counter -/

theorem pyLastSlice_nil (k : Nat) : pyLastSlice k [] = [] := by
  unfold pyLastSlice
  split
  · rfl
  · exact List.drop_nil

/-- **C9**: in non-long-output rendering, whenever a unit's stderr has more
lines than the limit and its stdout is empty, the rendered body contains a
stdout ellipsis line and a stdout footer whose `M` is the *stderr* line
count, because the stdout clipping test reuses the stderr loop counter when
the stdout loop body never runs. -/
theorem stdout_clip_reuses_stderr_counter (stderr : String) (oLn eLn limit : Nat)
    (h : limit < (pySplitlines stderr).length) :
    stdStreamsLines "" stderr oLn eLn false limit =
      [xPrefix ++ "..."]
        ++ pyLastSlice limit ((pySplitlines stderr).map (xPrefix ++ ·))
        ++ [clipFooter xPrefix limit (pySplitlines stderr).length]
        ++ [oPrefix ++ "...", clipFooter oPrefix limit (pySplitlines stderr).length]
        ++ (if oLn + eLn > 0 then [""] else []) := by
  have h0 : pySplitlines "" = ([] : List String) := rfl
  have hm1 : (pySplitlines stderr).length ≠ 0 := by omega
  unfold stdStreamsLines
  rw [h0]
  simp only [List.map_nil, List.length_nil, List.length_map, Bool.not_false, if_true,
    if_neg hm1, if_pos h, pyLastSlice_nil]
  simp [List.append_assoc]

theorem stdout_clip_reuses_stderr_counter_witness :
    stdStreamsLines "" "e1\ne2\ne3\ne4\ne5\ne6\ne7\ne8\n" 0 8 false 5 =
      ["      X ...", "      X e4", "      X e5", "      X e6", "      X e7", "      X e8",
       "      X Output clipped to the last 5 of 8 lines",
       "      > ...", "      > Output clipped to the last 5 of 8 lines", ""] := by
  rw [stdout_clip_reuses_stderr_counter "e1\ne2\ne3\ne4\ne5\ne6\ne7\ne8\n" 0 8 5 (by decide)]
  decide

/-! ## C6: the per-stream output body policy, with its stdout exception -/

/-- **C6** (counterexample): with limit 5, an 8-line stderr, and an *empty*
stdout, the rendered body is not the claim's per-stream rendering (stderr
clipped, stdout contributing nothing): it additionally holds a stdout
ellipsis line and a stdout footer citing stderr's 8 lines. -/
theorem output_body_per_stream_claim_false :
    stdStreamsLines "" "e1\ne2\ne3\ne4\ne5\ne6\ne7\ne8\n" 0 8 false 5 =
      ["      X ...", "      X e4", "      X e5", "      X e6", "      X e7", "      X e8",
       "      X Output clipped to the last 5 of 8 lines",
       "      > ...", "      > Output clipped to the last 5 of 8 lines", ""]
    ∧ stdStreamsLines "" "e1\ne2\ne3\ne4\ne5\ne6\ne7\ne8\n" 0 8 false 5 ≠
      ["      X ...", "      X e4", "      X e5", "      X e6", "      X e7", "      X e8",
       "      X Output clipped to the last 5 of 8 lines", ""] := by
  exact ⟨by decide, by decide⟩

/-- **C6** (amended): in non-long-output rendering with a limit of at least
one line, each stream is rendered as the claim states — all lines when the
stream's count is within the limit, otherwise an ellipsis marker, the last
`limit` lines and a `clipFooter` naming the stream's own count; stderr lines
carry the `      X ` prefix and stdout lines the `      > ` prefix; the
trailing blank separator appears exactly when the unit produced output —
*except* that when stdout is empty while stderr exceeded the limit, the
stdout section spuriously shows an ellipsis line and a footer citing
stderr's line count (the C9 behaviour). -/
theorem output_body_policy (stdout stderr : String) (oLn eLn limit : Nat)
    (hl : 1 ≤ limit) :
    stdStreamsLines stdout stderr oLn eLn false limit =
      (if (pySplitlines stderr).length > limit then
         [xPrefix ++ "..."] ++ pyLastSlice limit ((pySplitlines stderr).map (xPrefix ++ ·))
           ++ [clipFooter xPrefix limit (pySplitlines stderr).length]
       else (pySplitlines stderr).map (xPrefix ++ ·))
      ++ (if (pySplitlines stdout).length = 0 ∧ (pySplitlines stderr).length > limit then
            [oPrefix ++ "...", clipFooter oPrefix limit (pySplitlines stderr).length]
          else if (pySplitlines stdout).length > limit then
            [oPrefix ++ "..."] ++ pyLastSlice limit ((pySplitlines stdout).map (oPrefix ++ ·))
              ++ [clipFooter oPrefix limit (pySplitlines stdout).length]
          else (pySplitlines stdout).map (oPrefix ++ ·))
      ++ (if oLn + eLn > 0 then [""] else []) := by
  have hlen : ∀ (s : String) (pfx : String),
      (pySplitlines s).length = 0 → (pySplitlines s).map (pfx ++ ·) = [] := by
    intro s pfx hz
    rw [List.length_eq_zero.mp hz]
    rfl
  unfold stdStreamsLines
  simp only [Bool.not_false, if_true, List.length_map]
  by_cases hm0 : (pySplitlines stderr).length = 0
  · have hm : ¬(pySplitlines stderr).length > limit := by omega
    have h1 : ¬(1 : Nat) > limit := by omega
    simp only [if_pos hm0, if_neg h1, if_neg hm]
    by_cases hn0 : (pySplitlines stdout).length = 0
    · have hno : ¬((pySplitlines stdout).length = 0 ∧ (pySplitlines stderr).length > limit) :=
        fun hc => hm hc.2
      have hn : ¬(pySplitlines stdout).length > limit := by omega
      simp only [if_pos hn0, if_neg h1, if_neg hno, if_neg hn]
    · have hno : ¬((pySplitlines stdout).length = 0 ∧ (pySplitlines stderr).length > limit) :=
        fun hc => hn0 hc.1
      simp only [if_neg hn0, if_neg hno]
  · simp only [if_neg hm0]
    by_cases hn0 : (pySplitlines stdout).length = 0
    · by_cases hm : (pySplitlines stderr).length > limit
      · have hyes : (pySplitlines stdout).length = 0 ∧ (pySplitlines stderr).length > limit :=
          ⟨hn0, hm⟩
        simp only [if_pos hn0, if_pos hm, if_pos hyes, hlen stdout oPrefix hn0,
          pyLastSlice_nil]
        simp [List.append_assoc]
      · have hno : ¬((pySplitlines stdout).length = 0 ∧ (pySplitlines stderr).length > limit) :=
          fun hc => hm hc.2
        have hn : ¬(pySplitlines stdout).length > limit := by omega
        simp only [if_pos hn0, if_neg hm, if_neg hno, if_neg hn]
    · have hno : ¬((pySplitlines stdout).length = 0 ∧ (pySplitlines stderr).length > limit) :=
        fun hc => hn0 hc.1
      simp only [if_neg hn0, if_neg hno]

theorem output_body_policy_witness :
    stdStreamsLines "o1\no2\no3\no4\no5\no6\no7\no8\n" "e1\ne2\n" 8 2 false 5 =
      ["      X e1", "      X e2",
       "      > ...", "      > o4", "      > o5", "      > o6", "      > o7", "      > o8",
       "      > Output clipped to the last 5 of 8 lines", ""] := by
  rw [output_body_policy "o1\no2\no3\no4\no5\no6\no7\no8\n" "e1\ne2\n" 8 2 5 (by decide)]
  decide

/-! ## C8: terminal-geometry resolution -/

/-- **C8** (counterexample): with a successful platform query
`(lines 24, columns 80)` and an environment carrying *different* values
(`COLUMNS=100`, `LINES=50`), both returned dimensions come from the platform
— the claimed mixed resolution (width from the platform together with height
from the environment, here `(80, 50)`) does not occur, because the ioctl
path yields both dimensions or neither.  When the platform query fails, both
dimensions fall back to the environment at once. -/
theorem terminal_size_no_mixed_sources :
    getTerminalSize none (some (24, 80)) (some "100") (some "50") = (some 80, some 24)
    ∧ getTerminalSize none (some (24, 80)) (some "100") (some "50") ≠ (some 80, some 50)
    ∧ getTerminalSize none none (some "100") (some "50") = (some 100, some 50) := by
  exact ⟨by decide, by decide, by decide⟩

/-- **C8** (amended): the Terminal Geometry Resolver never raises (it is a
total function of its inputs); a successful platform query supplies *both*
dimensions and the environment is not consulted; if the platform query
fails, *both* dimensions fall back to the environment variables, each parsed
independently (one can resolve while the other remains absent, `none`); a
dimension that remains unresolved is returned as `none`, and the renderer
then treats a missing width as wide-output and a missing height as
long-output instead of substituting a numeric default. -/
theorem terminal_size_resolution (sh : Option (Int × Int)) (cols lines : Option String) :
    (∀ l c : Int, getTerminalSize sh (some (l, c)) cols lines = (some c, some l))
    ∧ getTerminalSize sh none cols lines = (pyEnvInt cols, pyEnvInt lines)
    ∧ (∀ (w lg : Bool) (tl : Option Int),
        applyMissingDims w lg none tl = (true, if tl = none then true else lg))
    ∧ (∀ (w lg : Bool) (tc : Option Int),
        applyMissingDims w lg tc none = (if tc = none then true else w, true))
    ∧ (∀ (w lg : Bool) (c l : Int), applyMissingDims w lg (some c) (some l) = (w, lg)) := by
  refine ⟨fun l c => rfl, rfl, fun w lg tl => rfl, fun w lg tc => ?_, fun w lg c l => ?_⟩
  · simp [applyMissingDims]
  · simp [applyMissingDims]

/-! ## C4: spawn failure aborts the run; all opened handles are closed -/

theorem dispatchLoop_ok_iff (spawnOk : String → Nat → Bool) :
    ∀ (q : List (String × Nat × String)) (acc : List String),
      (dispatchLoop spawnOk q acc).1 = .ok ()
        ↔ ∀ u ∈ q, spawnOk u.1 u.2.1 = true := by
  intro q
  induction q with
  | nil => intro acc; simp [dispatchLoop]
  | cons u rest ih =>
    intro acc
    by_cases hs : spawnOk u.1 u.2.1 = true
    · simp [dispatchLoop, hs, ih]
    · simp only [dispatchLoop, if_neg hs]
      constructor
      · intro h; exact absurd h (by simp)
      · intro h; exact absurd (h u (List.mem_cons_self u rest)) hs

theorem dispatchLoop_opened (spawnOk : String → Nat → Bool) :
    ∀ (l₁ : List (String × Nat × String)) (u : String × Nat × String)
      (l₂ : List (String × Nat × String)) (acc : List String),
      (∀ v ∈ l₁, spawnOk v.1 v.2.1 = true) → spawnOk u.1 u.2.1 = false →
      dispatchLoop spawnOk (l₁ ++ u :: l₂) acc =
        (.error (u.1, u.2.1),
         acc ++ (l₁ ++ [u]).flatMap (fun v => unitTriple v.1 v.2.1)) := by
  intro l₁
  induction l₁ with
  | nil =>
    intro u l₂ acc _ hu
    simp [dispatchLoop, hu]
  | cons v rest ih =>
    intro u l₂ acc hall hu
    have hv : spawnOk v.1 v.2.1 = true := hall v (List.mem_cons_self v rest)
    have hrest : ∀ w ∈ rest, spawnOk w.1 w.2.1 = true :=
      fun w hw => hall w (List.mem_cons_of_mem _ hw)
    simp only [List.cons_append, dispatchLoop, if_pos hv, List.append_eq]
    rw [ih u l₂ _ hrest hu]
    simp [List.append_assoc]

/-- **C4**: if starting a remote-invocation process (`subprocess.Popen`)
fails at any point during dispatch, the error propagates out of
`remote_execute` and aborts the run (the outcome is `ok` exactly when every
spawn succeeds, and a failure at any queue position yields that unit's
error), and on every exit path the set of closed artifact handles equals the
set successfully opened before the failure — the handles of the completed
units plus the failing unit's freshly opened triple. -/
theorem dispatch_failure_aborts_and_closes_handles (spawnOk : String → Nat → Bool)
    (servers : List String) (commands : List (List String)) :
    (remoteExecuteSpawn spawnOk servers commands).2.2
        = (remoteExecuteSpawn spawnOk servers commands).2.1
    ∧ ((remoteExecuteSpawn spawnOk servers commands).1 = .ok ()
        ↔ ∀ u ∈ runQueue servers commands, spawnOk u.1 u.2.1 = true)
    ∧ (∀ (l₁ : List (String × Nat × String)) (u : String × Nat × String) l₂,
        runQueue servers commands = l₁ ++ u :: l₂ →
        (∀ v ∈ l₁, spawnOk v.1 v.2.1 = true) → spawnOk u.1 u.2.1 = false →
        (remoteExecuteSpawn spawnOk servers commands).1 = .error (u.1, u.2.1)
        ∧ (remoteExecuteSpawn spawnOk servers commands).2.1
            = (l₁ ++ [u]).flatMap (fun v => unitTriple v.1 v.2.1)) := by
  refine ⟨rfl, dispatchLoop_ok_iff spawnOk _ [], ?_⟩
  intro l₁ u l₂ hq hall hu
  have h := dispatchLoop_opened spawnOk l₁ u l₂ [] hall hu
  unfold remoteExecuteSpawn
  rw [hq, h]
  simp

theorem dispatch_failure_aborts_and_closes_handles_witness :
    (remoteExecuteSpawn (fun _ n => n == 1) ["a"] [["c1", "c2"]]).1 = .error ("a", 2)
    ∧ (remoteExecuteSpawn (fun _ n => n == 1) ["a"] [["c1", "c2"]]).2.1
        = unitTriple "a" 1 ++ unitTriple "a" 2
    ∧ (remoteExecuteSpawn (fun _ n => n == 1) ["a"] [["c1", "c2"]]).2.2
        = (remoteExecuteSpawn (fun _ n => n == 1) ["a"] [["c1", "c2"]]).2.1 := by
  have h := (dispatch_failure_aborts_and_closes_handles
    (fun _ n => n == 1) ["a"] [["c1", "c2"]]).2.2
    [("a", 1, "c1")] ("a", 2, "c2") [] (by decide) (by decide) (by decide)
  exact ⟨h.1, by rw [h.2]; decide,
    (dispatch_failure_aborts_and_closes_handles (fun _ n => n == 1) ["a"] [["c1", "c2"]]).1⟩

/-! ## C3: S×C execution units, one complete artifact triple each -/

theorem countP_flatMap_const {α β : Type} (p : β → Bool) (f : α → List β) (k : Nat)
    (h : ∀ a, List.countP p (f a) = k) :
    ∀ l : List α, List.countP p (l.flatMap f) = l.length * k := by
  intro l
  induction l with
  | nil => simp
  | cons a rest ih =>
    simp only [List.flatMap_cons, List.countP_append, h a, ih, List.length_cons]
    ring

theorem filterMap_flatMap_eq {α β γ : Type} (g : β → Option γ) (f : α → List β)
    (l : List α) :
    (l.flatMap f).filterMap g = l.flatMap (fun a => (f a).filterMap g) := by
  induction l with
  | nil => rfl
  | cons a rest ih => simp [List.flatMap_cons, List.filterMap_append, ih]

theorem runQueue_length (servers : List String) (commands : List (List String)) :
    (runQueue servers commands).length = servers.length * commands.flatten.length := by
  unfold runQueue
  induction servers with
  | nil => simp
  | cons s rest ih =>
    simp only [List.flatMap_cons, List.length_append, List.length_map,
      List.enumFrom_length, ih, List.length_cons]
    ring

/-- Per-unit spawn count is one, per-unit wait/write part holds no spawn. -/
theorem trace_spawn_count (rc : String → Nat → Int) (servers : List String)
    (commands : List (List String)) :
    (remoteExecuteTrace rc servers commands).countP isSpawn
      = servers.length * commands.flatten.length := by
  unfold remoteExecuteTrace
  rw [List.countP_append]
  rw [countP_flatMap_const isSpawn _ 1 (fun u => by simp [unitTriple, isSpawn, List.countP_cons])]
  rw [countP_flatMap_const isSpawn _ 0 (fun u => by simp [isSpawn, List.countP_cons])]
  rw [runQueue_length]
  ring

theorem trace_opened_names (rc : String → Nat → Int) (servers : List String)
    (commands : List (List String)) :
    (remoteExecuteTrace rc servers commands).filterMap openedName
      = (runQueue servers commands).flatMap (fun u => unitTriple u.1 u.2.1) := by
  unfold remoteExecuteTrace
  rw [List.filterMap_append, filterMap_flatMap_eq, filterMap_flatMap_eq]
  have h1 : ∀ u : String × Nat × String,
      (((unitTriple u.1 u.2.1).map REEvent.openFile ++ [REEvent.spawn u.1 u.2.1]).filterMap
        openedName) = unitTriple u.1 u.2.1 := by
    intro u
    simp [unitTriple, openedName]
  have h2 : ∀ u : String × Nat × String,
      (([REEvent.wait u.1 u.2.1, REEvent.writeRetval u.1 u.2.1 (rc u.1 u.2.1)]).filterMap
        openedName) = ([] : List String) := by
    intro u
    simp [openedName]
  simp only [h1, h2, List.flatMap]
  simp

theorem unitTriple_nodup (s : String) (n : Nat) : (unitTriple s n).Nodup := by
  have hr : ('.' : Char) ∉ ("retval" : String).data := by decide
  have ho : ('.' : Char) ∉ ("stdout" : String).data := by decide
  have he : ('.' : Char) ∉ ("stderr" : String).data := by decide
  simp only [unitTriple, List.nodup_cons, List.mem_cons, List.not_mem_nil, or_false,
    List.mem_singleton, List.nodup_nil, and_true]
  refine ⟨?_, ?_⟩
  · rintro (h | h)
    · exact absurd (composeName_inj hr ho h).2.2 (by decide)
    · exact absurd (composeName_inj hr he h).2.2 (by decide)
  · exact ⟨fun h => absurd (composeName_inj ho he h).2.2 (by decide), not_false⟩

theorem unitTriple_disjoint {s₁ s₂ : String} {n₁ n₂ : Nat}
    (h : ¬(s₁ = s₂ ∧ n₁ = n₂)) :
    List.Disjoint (unitTriple s₁ n₁) (unitTriple s₂ n₂) := by
  have hks : ∀ k : String, k ∈ ["retval", "stdout", "stderr"] → '.' ∉ k.data := by
    intro k hk
    simp only [List.mem_cons, List.not_mem_nil, or_false] at hk
    rcases hk with rfl | rfl | rfl <;> decide
  intro x hx₁ hx₂
  simp only [unitTriple, List.mem_cons, List.mem_singleton, List.not_mem_nil, or_false] at hx₁ hx₂
  apply h
  have get₁ : ∃ k₁ ∈ ["retval", "stdout", "stderr"], x = composeName s₁ n₁ k₁ := by
    rcases hx₁ with h | h | h <;> exact ⟨_, by simp, h⟩
  have get₂ : ∃ k₂ ∈ ["retval", "stdout", "stderr"], x = composeName s₂ n₂ k₂ := by
    rcases hx₂ with h | h | h <;> exact ⟨_, by simp, h⟩
  obtain ⟨k₁, hk₁, he₁⟩ := get₁
  obtain ⟨k₂, hk₂, he₂⟩ := get₂
  have heq : composeName s₁ n₁ k₁ = composeName s₂ n₂ k₂ := he₁.symm.trans he₂
  have := composeName_inj (hks k₁ hk₁) (hks k₂ hk₂) heq
  exact ⟨this.1, this.2.1⟩

theorem runQueue_keys_pairwise {servers : List String} (commands : List (List String))
    (hnd : servers.Nodup) :
    (runQueue servers commands).Pairwise
      (fun u v => ¬(u.1 = v.1 ∧ u.2.1 = v.2.1)) := by
  unfold runQueue
  rw [List.pairwise_flatMap]
  constructor
  · intro s _
    rw [List.pairwise_map]
    have : (List.enumFrom 1 commands.flatten).Pairwise (fun a b => a.1 ≠ b.1) := by
      have hmf : ((List.enumFrom 1 commands.flatten).map Prod.fst).Nodup := by
        rw [List.enumFrom_map_fst]
        exact List.nodup_range' _ _
      rw [List.Nodup, List.pairwise_map] at hmf
      exact hmf
    exact this.imp (by intro a b hab hc; exact hab hc.2)
  · have := hnd
    rw [List.Nodup] at this
    refine this.imp ?_
    intro s₁ s₂ hne
    intro x hx y hy hc
    simp only [List.mem_map] at hx hy
    obtain ⟨a, _, rfl⟩ := hx
    obtain ⟨b, _, rfl⟩ := hy
    exact hne hc.1

theorem trace_opened_nodup (rc : String → Nat → Int) {servers : List String}
    (commands : List (List String)) (hnd : servers.Nodup) :
    ((remoteExecuteTrace rc servers commands).filterMap openedName).Nodup := by
  rw [trace_opened_names]
  rw [List.nodup_flatMap]
  refine ⟨fun u _ => unitTriple_nodup u.1 u.2.1, ?_⟩
  exact (runQueue_keys_pairwise commands hnd).imp fun huv => unitTriple_disjoint huv

theorem phase2_write_preceded (rc : String → Nat → Int) :
    ∀ (q : List (String × Nat × String)) (l₁ : List REEvent) (s : String) (n : Nat)
      (code : Int) (l₂ : List REEvent),
      q.flatMap (fun u =>
          [REEvent.wait u.1 u.2.1, REEvent.writeRetval u.1 u.2.1 (rc u.1 u.2.1)])
        = l₁ ++ REEvent.writeRetval s n code :: l₂ →
      REEvent.wait s n ∈ l₁ := by
  intro q
  induction q with
  | nil =>
    intro l₁ s n code l₂ h
    exact absurd h.symm (by simp)
  | cons u rest ih =>
    intro l₁ s n code l₂ h
    simp only [List.flatMap_cons, List.cons_append, List.nil_append] at h
    cases l₁ with
    | nil => simp at h
    | cons x l₁' =>
      cases l₁' with
      | nil =>
        simp only [List.cons_append, List.nil_append, List.cons.injEq] at h
        obtain ⟨hx, hw, _⟩ := h
        injection hw with h1 h2 h3
        subst h1
        subst h2
        rw [← hx]
        exact List.mem_singleton.mpr rfl
      | cons y l₁'' =>
        simp only [List.cons_append, List.cons.injEq] at h
        obtain ⟨hx, hy, hrest⟩ := h
        exact List.mem_cons_of_mem _ (List.mem_cons_of_mem _ (ih l₁'' s n code l₂ hrest))

theorem phase1_no_writes (servers : List String) (commands : List (List String)) :
    ∀ e ∈ (runQueue servers commands).flatMap (fun u =>
        (unitTriple u.1 u.2.1).map REEvent.openFile ++ [REEvent.spawn u.1 u.2.1]),
      ∀ (s : String) (n : Nat) (code : Int), e ≠ REEvent.writeRetval s n code := by
  intro e he s n code
  rw [List.mem_flatMap] at he
  obtain ⟨u, _, hmem⟩ := he
  rw [List.mem_append] at hmem
  rcases hmem with hm | hm
  · rw [List.mem_map] at hm
    obtain ⟨nm, _, rfl⟩ := hm
    simp
  · rw [List.mem_singleton] at hm
    subst hm
    simp

theorem trace_write_after_wait (rc : String → Nat → Int) (servers : List String)
    (commands : List (List String)) :
    ∀ (l₁ : List REEvent) (s : String) (n : Nat) (code : Int) (l₂ : List REEvent),
      remoteExecuteTrace rc servers commands = l₁ ++ REEvent.writeRetval s n code :: l₂ →
      REEvent.wait s n ∈ l₁ := by
  intro l₁ s n code l₂ h
  unfold remoteExecuteTrace at h
  rcases List.append_eq_append_iff.mp h with ⟨a', ha1, ha2⟩ | ⟨c', hc1, hc2⟩
  · rw [ha1]
    exact List.mem_append_right _ (phase2_write_preceded rc _ a' s n code l₂ ha2)
  · cases c' with
    | nil =>
      rw [List.nil_append] at hc2
      exact absurd (phase2_write_preceded rc _ [] s n code l₂ hc2.symm) (by simp)
    | cons x c'' =>
      rw [List.cons_append, List.cons.injEq] at hc2
      have hxA : x ∈ (runQueue servers commands).flatMap (fun u =>
          (unitTriple u.1 u.2.1).map REEvent.openFile ++ [REEvent.spawn u.1 u.2.1]) := by
        rw [hc1]
        exact List.mem_append_right _ (List.mem_cons_self x c'')
      exact absurd hc2.1.symm (phase1_no_writes servers commands x hxA s n code)

/-- **C3**: for `S` servers and `C` total commands, `remote_execute` starts
exactly `S×C` execution units (spawn events) and opens exactly one artifact
triple per unit — the opened names are precisely one retval/stdout/stderr
triple for each unit of the run queue, with no duplicates for a duplicate-free
server set — every retval write in the trace is preceded by that same
unit's process termination (`communicate()`), and every unit's retval write is
present by the end of the trace, so a reader that runs after the trace never
observes a partially written triple. -/
theorem dispatcher_trace_properties (rc : String → Nat → Int) (servers : List String)
    (commands : List (List String)) :
    (remoteExecuteTrace rc servers commands).countP isSpawn
        = servers.length * commands.flatten.length
    ∧ (remoteExecuteTrace rc servers commands).filterMap openedName
        = (runQueue servers commands).flatMap (fun u => unitTriple u.1 u.2.1)
    ∧ (servers.Nodup →
        ((remoteExecuteTrace rc servers commands).filterMap openedName).Nodup)
    ∧ (∀ (l₁ : List REEvent) (s : String) (n : Nat) (code : Int) (l₂ : List REEvent),
        remoteExecuteTrace rc servers commands
            = l₁ ++ REEvent.writeRetval s n code :: l₂ →
        REEvent.wait s n ∈ l₁)
    ∧ (∀ u ∈ runQueue servers commands,
        REEvent.writeRetval u.1 u.2.1 (rc u.1 u.2.1)
          ∈ remoteExecuteTrace rc servers commands) :=
  ⟨trace_spawn_count rc servers commands,
   trace_opened_names rc servers commands,
   fun hnd => trace_opened_nodup rc commands hnd,
   trace_write_after_wait rc servers commands,
   fun u hu => by
     unfold remoteExecuteTrace
     refine List.mem_append_right _ (List.mem_flatMap.mpr ⟨u, hu, ?_⟩)
     simp⟩

theorem dispatcher_trace_properties_witness :
    (remoteExecuteTrace (fun _ _ => 0) ["a", "b"] [["x"], ["y"]]).countP isSpawn = 4
    ∧ ((remoteExecuteTrace (fun _ _ => 0) ["a", "b"] [["x"], ["y"]]).filterMap
        openedName).Nodup :=
  ⟨by simpa using (dispatcher_trace_properties (fun _ _ => 0) ["a", "b"] [["x"], ["y"]]).1,
   (dispatcher_trace_properties (fun _ _ => 0) ["a", "b"] [["x"], ["y"]]).2.2.1 (by decide)⟩

/-! ## C5: width policy -/

theorem scanToM_spec :
    ∀ {l : List Char} {n : Nat} {r : List Char},
      scanToM l = some (n, r) → n + r.length = l.length ∧ 1 ≤ n := by
  intro l
  induction l with
  | nil => intro n r h; exact absurd h (by simp [scanToM])
  | cons c rest ih =>
    intro n r h
    by_cases hm : c = 'm'
    · rw [scanToM, if_pos hm] at h
      have hh := Option.some.inj h
      have hn1 : n = 1 := (congrArg Prod.fst hh).symm
      have hr1 : r = rest := (congrArg Prod.snd hh).symm
      subst hn1
      subst hr1
      simp only [List.length_cons]
      omega
    · by_cases hn : c = '\n'
      · rw [scanToM, if_neg hm, if_pos hn] at h
        exact absurd h (by simp)
      · rw [scanToM, if_neg hm, if_neg hn] at h
        cases hs : scanToM rest with
        | none => rw [hs] at h; exact absurd h (by simp)
        | some p =>
          rw [hs] at h
          obtain ⟨n', r'⟩ := p
          have := Option.some.inj h
          have hn' : n = n' + 1 := (congrArg Prod.fst this).symm
          have hr' : r = r' := (congrArg Prod.snd this).symm
          obtain ⟨ha, hb⟩ := ih hs
          subst hn'
          subst hr'
          constructor
          · simpa [Nat.succ_eq_add_one] using by omega
          · omega

theorem ansiLenGo_le : ∀ (fuel : Nat) (l : List Char), ansiLenGo fuel l ≤ l.length := by
  intro fuel
  induction fuel with
  | zero => intro l; simp [ansiLenGo]
  | succ fuel ih =>
    intro l
    cases l with
    | nil => simp [ansiLenGo]
    | cons c rest =>
      rw [ansiLenGo]
      split
      · rename_i hc
        cases hs : scanToM rest.tail with
        | none => exact le_trans (ih rest) (by simp)
        | some p =>
          obtain ⟨n, r⟩ := p
          obtain ⟨hlen, hone⟩ := scanToM_spec hs
          have hr : rest ≠ [] := by
            intro hnil
            rw [hnil] at hc
            exact absurd hc.2 (by simp)
          have htail : rest.tail.length = rest.length - 1 := by
            cases rest with
            | nil => exact absurd rfl hr
            | cons a b => simp
          have := ih r
          simp only [List.length_cons]
          omega
      · exact le_trans (ih rest) (by simp)

theorem ansiLenGo_congr :
    ∀ (fuel₁ fuel₂ : Nat) (l : List Char), l.length ≤ fuel₁ → l.length ≤ fuel₂ →
      ansiLenGo fuel₁ l = ansiLenGo fuel₂ l := by
  intro fuel₁
  induction fuel₁ with
  | zero =>
    intro fuel₂ l h₁ _
    have : l = [] := List.length_eq_zero.mp (by omega)
    subst this
    cases fuel₂ <;> rfl
  | succ fuel₁ ih =>
    intro fuel₂ l h₁ h₂
    cases l with
    | nil => cases fuel₂ <;> rfl
    | cons c rest =>
      cases fuel₂ with
      | zero => simp at h₂
      | succ fuel₂ =>
        rw [ansiLenGo, ansiLenGo]
        simp only [List.length_cons] at h₁ h₂
        split
        · rename_i hc
          cases hs : scanToM rest.tail with
          | none => exact ih fuel₂ rest (by omega) (by omega)
          | some p =>
            obtain ⟨n, r⟩ := p
            obtain ⟨hlen, hone⟩ := scanToM_spec hs
            have hr : rest ≠ [] := by
              intro hnil
              rw [hnil] at hc
              exact absurd hc.2 (by simp)
            have htail : rest.tail.length = rest.length - 1 := by
              cases rest with
              | nil => exact absurd rfl hr
              | cons a b => simp
            dsimp only
            rw [ih fuel₂ r (by omega) (by omega)]
        · exact ih fuel₂ rest (by omega) (by omega)

theorem ansiLenGo_no_esc :
    ∀ (fuel : Nat) {l : List Char}, '\x1b' ∉ l → ansiLenGo fuel l = 0 := by
  intro fuel
  induction fuel with
  | zero => intro l _; rfl
  | succ fuel ih =>
    intro l hl
    cases l with
    | nil => rfl
    | cons c rest =>
      simp only [List.mem_cons, not_or] at hl
      rw [ansiLenGo, if_neg (fun hc => hl.1 hc.1.symm)]
      exact ih hl.2

/-- A run of complete ANSI escape sequences `ESC [ body m`, as produced by
`_escaped_with` / the colorized format strings. -/
inductive EscRun : List Char → Prop
  | nil : EscRun []
  | cons (body rest : List Char) :
      (∀ c ∈ body, c ≠ 'm' ∧ c ≠ '\n') → EscRun rest →
      EscRun ('\x1b' :: '[' :: body ++ 'm' :: rest)

theorem scanToM_body :
    ∀ {body : List Char}, (∀ c ∈ body, c ≠ 'm' ∧ c ≠ '\n') → ∀ (rest : List Char),
      scanToM (body ++ 'm' :: rest) = some (body.length + 1, rest) := by
  intro body
  induction body with
  | nil => intro _ rest; simp [scanToM]
  | cons c bs ih =>
    intro h rest
    have hc := h c (List.mem_cons_self c bs)
    rw [List.cons_append, scanToM, if_neg hc.1, if_neg hc.2,
        ih (fun d hd => h d (List.mem_cons_of_mem _ hd)) rest]
    simp only [List.length_cons]

theorem ansiLenGo_escRun_append :
    ∀ {e : List Char}, EscRun e → ∀ {v : List Char}, '\x1b' ∉ v →
      ∀ (fuel : Nat), (e ++ v).length ≤ fuel → ansiLenGo fuel (e ++ v) = e.length := by
  intro e he
  induction he with
  | nil =>
    intro v hv fuel _
    simpa using ansiLenGo_no_esc fuel hv
  | cons body rest hbody hrest ih =>
    intro v hv fuel hfuel
    have hshape : ('\x1b' :: '[' :: body ++ 'm' :: rest) ++ v
        = '\x1b' :: '[' :: (body ++ 'm' :: (rest ++ v)) := by
      simp
    rw [hshape] at hfuel ⊢
    cases fuel with
    | zero => simp at hfuel
    | succ fuel =>
      rw [ansiLenGo, if_pos (by simp)]
      simp only [List.tail_cons]
      rw [scanToM_body hbody (rest ++ v)]
      have hrv : (rest ++ v).length ≤ fuel := by
        simp only [List.length_cons, List.length_append] at hfuel ⊢
        omega
      dsimp only
      rw [ih hv fuel hrv]
      simp only [List.length_cons, List.length_append]
      omega

theorem ansiLen_escRun_append {e v : List Char} (he : EscRun e) (hv : '\x1b' ∉ v) :
    ansiLen ⟨e ++ v⟩ = e.length :=
  ansiLenGo_escRun_append he hv _ (le_refl _)

theorem ansiLen_le (line : String) : ansiLen line ≤ line.length :=
  ansiLenGo_le _ _

/-- **C5** (counterexample): colorize a 20-character line the way the program
does (`ESC[32m … ESC[0m`) and truncate it at width 10: the trailing reset
sequence falls beyond the cut, yet its four bytes still widen the budget, so
the rendered line keeps 14 visible characters — the claim's "visible text is
what is truncated to `W`" fails (the non-colorized half of the claim does
hold: see the amended theorem). -/
theorem width_policy_color_visible_counterexample :
    applyWidthColor 10 "\x1b[32mabcdefghijklmnopqrst\x1b[0m" = "\x1b[32mabcdefghijk..."
    ∧ visLen (applyWidthColor 10 "\x1b[32mabcdefghijklmnopqrst\x1b[0m") = 14
    ∧ visLen (applyWidthColor 10 "\x1b[32mabcdefghijklmnopqrst\x1b[0m") ≠ 10 := by
  exact ⟨by decide, by decide, by decide⟩

theorem applyWidthColor_keep (w : Nat) (line : String) (h : visLen line ≤ w) :
    applyWidthColor w line = line := by
  have hansile : ansiLen line ≤ line.length := ansiLen_le line
  unfold applyWidthColor
  unfold visLen at h
  by_cases hl : line.length > w
  · rw [if_pos hl, if_pos (by omega)]
  · rw [if_neg hl]

theorem applyWidthColor_trunc (w : Nat) (line : String) (hw : 3 ≤ w)
    (h : w < visLen line) :
    applyWidthColor w line = (⟨line.data.take (w + ansiLen line - 3)⟩ : String) ++ "..."
    ∧ (applyWidthColor w line).length = w + ansiLen line := by
  have hansile : ansiLen line ≤ line.length := ansiLen_le line
  have hlen : line.length = line.data.length := rfl
  unfold applyWidthColor
  unfold visLen at h
  rw [if_pos (by omega), if_neg (by omega)]
  have h3 : pyPrefixSlice ((w : Int) + (ansiLen line : Int) - 3) line.data
      = line.data.take (w + ansiLen line - 3) := by
    unfold pyPrefixSlice
    rw [if_pos (by omega)]
    congr 1
    omega
  rw [h3]
  refine ⟨rfl, ?_⟩
  have htk : (line.data.take (w + ansiLen line - 3)).length = w + ansiLen line - 3 := by
    rw [List.length_take]
    omega
  have hres : ((⟨line.data.take (w + ansiLen line - 3)⟩ : String) ++ "...").length
      = (line.data.take (w + ansiLen line - 3)).length + 3 := by
    rw [String.length_append]
    rfl
  rw [hres, htk]
  omega

/-- **C5** (amended): with wide-output off and a resolved width `W ≥ 3`,
every non-colorized rendered line longer than `W` is truncated to `W−3`
characters plus a three-character ellipsis (so a 20-character line at width
10 renders at exactly 10 characters), shorter lines pass unchanged; when
colorized, the ANSI escape bytes are excluded from the length budget — a
line is left alone exactly when its *visible* length fits in `W`, and a
truncated line keeps `W + E` raw characters where `E` counts all its escape
bytes; the visible text is truncated to exactly `W` when the line's escape
sequences all precede the cut (e.g. a single leading color sequence), while
escape bytes beyond the cut are severed yet still counted, so the visible
remainder can exceed `W`. -/
theorem width_policy (w : Nat) (line : String) (hw : 3 ≤ w) :
    (line.length ≤ w → applyWidthNoColor w line = line)
    ∧ (w < line.length →
        applyWidthNoColor w line = (⟨line.data.take (w - 3)⟩ : String) ++ "..."
        ∧ (applyWidthNoColor w line).length = w)
    ∧ (visLen line ≤ w → applyWidthColor w line = line)
    ∧ (w < visLen line →
        applyWidthColor w line = (⟨line.data.take (w + ansiLen line - 3)⟩ : String) ++ "..."
        ∧ (applyWidthColor w line).length = w + ansiLen line)
    ∧ (∀ e v : List Char, line = ⟨e ++ v⟩ → EscRun e → '\x1b' ∉ v → w < v.length →
        applyWidthColor w line = (⟨e ++ v.take (w - 3)⟩ : String) ++ "..."
        ∧ visLen (applyWidthColor w line) = w) := by
  have hlen : line.length = line.data.length := rfl
  refine ⟨?_, ?_, applyWidthColor_keep w line, applyWidthColor_trunc w line hw, ?_⟩
  · intro h
    unfold applyWidthNoColor
    rw [if_neg (by omega)]
  · intro h
    unfold applyWidthNoColor
    rw [if_pos (by omega)]
    have h3 : pyPrefixSlice ((w : Int) - 3) line.data = line.data.take (w - 3) := by
      unfold pyPrefixSlice
      rw [if_pos (by omega)]
      congr 1
      omega
    rw [h3]
    refine ⟨rfl, ?_⟩
    have htk : (line.data.take (w - 3)).length = w - 3 := by
      rw [List.length_take]
      omega
    have hres : ((⟨line.data.take (w - 3)⟩ : String) ++ "...").length
        = (line.data.take (w - 3)).length + 3 := by
      rw [String.length_append]
      rfl
    rw [hres, htk]
    omega
  · intro e v hline he hv hvlen
    subst hline
    have hansi : ansiLen ⟨e ++ v⟩ = e.length := ansiLen_escRun_append he hv
    have hlenev : (⟨e ++ v⟩ : String).length = e.length + v.length := by
      show (e ++ v).length = e.length + v.length
      exact List.length_append e v
    have hvis : w < visLen ⟨e ++ v⟩ := by
      unfold visLen
      rw [hansi, hlenev]
      omega
    obtain ⟨heq, _⟩ := applyWidthColor_trunc w ⟨e ++ v⟩ hw hvis
    have hdata : (⟨e ++ v⟩ : String).data = e ++ v := rfl
    have hamount : w + ansiLen ⟨e ++ v⟩ - 3 = e.length + (w - 3) := by
      rw [hansi]
      omega
    have htake : (e ++ v).take (e.length + (w - 3)) = e ++ v.take (w - 3) :=
      List.take_append (w - 3)
    have heq' : applyWidthColor w ⟨e ++ v⟩ = (⟨e ++ v.take (w - 3)⟩ : String) ++ "..." := by
      rw [heq, hdata, hamount, htake]
    refine ⟨heq', ?_⟩
    rw [heq']
    have hstr : ((⟨e ++ v.take (w - 3)⟩ : String) ++ "...")
        = (⟨e ++ (v.take (w - 3) ++ ("..." : String).data)⟩ : String) := by
      show (⟨(e ++ v.take (w - 3)) ++ ("..." : String).data⟩ : String) = _
      rw [List.append_assoc]
    rw [hstr]
    have hnoesc : '\x1b' ∉ v.take (w - 3) ++ ("..." : String).data := by
      intro hmem
      rcases List.mem_append.mp hmem with hm | hm
      · exact hv (List.take_subset _ _ hm)
      · exact absurd hm (by decide)
    have hansi2 : ansiLen ⟨e ++ (v.take (w - 3) ++ ("..." : String).data)⟩ = e.length :=
      ansiLen_escRun_append he hnoesc
    unfold visLen
    rw [hansi2]
    have hlen2 : ((⟨e ++ (v.take (w - 3) ++ ("..." : String).data)⟩ : String)).length
        = e.length + ((w - 3) + 3) := by
      show (e ++ (v.take (w - 3) ++ ("..." : String).data)).length = _
      rw [List.length_append, List.length_append, List.length_take]
      have : min (w - 3) v.length = w - 3 := by omega
      rw [this]
      rfl
    rw [hlen2]
    omega

theorem width_policy_witness :
    applyWidthNoColor 10 "abcdefghijklmnopqrst" = "abcdefg..."
    ∧ (applyWidthNoColor 10 "abcdefghijklmnopqrst").length = 10
    ∧ applyWidthColor 10 "\x1b[32mabcdefghijklmnopqrst" = "\x1b[32mabcdefg..."
    ∧ visLen (applyWidthColor 10 "\x1b[32mabcdefghijklmnopqrst") = 10 := by
  have h1 := (width_policy 10 "abcdefghijklmnopqrst" (by decide)).2.1 (by decide)
  have hesc : EscRun ("\x1b[32m" : String).data := by
    have h := EscRun.cons ['3', '2'] [] (by decide) EscRun.nil
    exact h
  have h2 := ((width_policy 10 "\x1b[32mabcdefghijklmnopqrst" (by decide)).2.2.2.2)
    ("\x1b[32m" : String).data ("abcdefghijklmnopqrst" : String).data rfl hesc
    (by decide) (by decide)
  refine ⟨?_, ?_, ?_, h2.2⟩
  · rw [h1.1]
    decide
  · exact h1.2
  · rw [h2.1]
    decide

